import Mathlib

set_option maxRecDepth 100000

/-!
# Verification of the `image2out` media reconciliation scripts

Shallow embedding of the deduplication/reconciliation engine implemented by
`media_organizer.py` (in-memory dictionaries), `media_organizer_optimized.py` /
`media_organizer_ultra.py` (SQLite-backed), and the scan phase of the ultra
variant.  File contents are abstracted by a `FileData` record carrying the
quantities the engine observes (size, exact digest, perceptual digest,
decodability); digests are deterministic functions of content, which is what
the hashing code guarantees.  All definitions are executable and mirror the
Python control flow branch by branch.
-/

/-- File categories assigned by extension (`get_file_type`). -/
inductive FileType where
  | image | video | archive | other
deriving DecidableEq

/-- Image extensions table of `get_file_type`. -/
def image_extensions : List String :=
  [".jpg", ".jpeg", ".png", ".gif", ".bmp", ".tiff", ".webp", ".heic", ".heif"]

/-- Video extensions table of `get_file_type`. -/
def video_extensions : List String :=
  [".mp4", ".avi", ".mov", ".mkv", ".wmv", ".flv", ".webm", ".m4v", ".3gp", ".mpg", ".mpeg"]

/-- Archive extensions table of `get_file_type`. -/
def archive_extensions : List String :=
  [".zip", ".rar", ".7z", ".tar", ".gz", ".bz2", ".xz", ".tar.gz", ".tar.bz2", ".tar.xz"]

/-- ASCII lower-casing of one character (`str.lower` restricted to ASCII names). -/
def lowerChar (c : Char) : Char :=
  if 65 ≤ c.toNat ∧ c.toNat ≤ 90 then Char.ofNat (c.toNat + 32) else c

/-- ASCII lower-casing of a string. -/
def lowerStr (s : String) : String := String.mk (s.toList.map lowerChar)

/-- Model of `os.path.splitext` restricted to a basename: split at the last dot, unless every
character before that dot is itself a dot (so `.bashrc` keeps no extension). -/
def splitext (s : String) : String × String :=
  let cs := s.toList
  match ((List.range cs.length).filter (fun i => cs.getD i ' ' = '.')).getLast? with
  | none => (s, "")
  | some i =>
    if (cs.take i).any (fun c => c ≠ '.') then
      (String.mk (cs.take i), String.mk (cs.drop i))
    else (s, "")

/-- Function `get_file_type`: classify a basename by its lower-cased extension. -/
def get_file_type (basename : String) : FileType :=
  let ext := (splitext (lowerStr basename)).2
  if ext ∈ image_extensions then .image
  else if ext ∈ video_extensions then .video
  else if ext ∈ archive_extensions then .archive
  else .other

/-- Directory names skipped by the walker (`should_skip_directory`). -/
def skip_dirs : List String :=
  ["@eaDir", ".DS_Store", "Thumbs.db", "@Recycle", "#recycle", ".thumbnail", "mp4", "zip"]

/-- Check `dir_name.startswith('.')`. -/
def startsWithDot (s : String) : Bool :=
  match s.toList with
  | '.' :: _ => true
  | _ => false

/-- Predicate `should_skip_directory` applied to a directory basename. -/
def should_skip_directory (dir_name : String) : Bool :=
  decide (dir_name ∈ skip_dirs) || startsWithDot dir_name

/-! ## Decimal rendering of the collision counter

Python renders the collision counter with `f"{name}_{counter}{ext}"`; the embedding
renders the counter with a fueled structural recursion (`n + 1` digits of fuel always
suffice), so that everything evaluates inside the kernel. -/

/-- Fueled decimal digits of a natural number, most significant first. -/
def decCharsCore : Nat → Nat → List Char
  | 0, _ => []
  | fuel + 1, n =>
    if n < 10 then [Nat.digitChar n]
    else decCharsCore fuel (n / 10) ++ [Nat.digitChar (n % 10)]

/-- Decimal rendering of a natural number, as Python `str` produces it. -/
def natStr (n : Nat) : String := String.mk (decCharsCore (n + 1) n)

/-- Left inverse of decimal rendering: read the digits back. -/
def digitsVal (cs : List Char) : Nat := cs.foldl (fun a c => a * 10 + (c.toNat - 48)) 0

theorem digitChar_toNat {n : Nat} (h : n < 10) : (Nat.digitChar n).toNat = n + 48 := by
  interval_cases n <;> rfl

theorem digitsVal_append_singleton (cs : List Char) (c : Char) :
    digitsVal (cs ++ [c]) = digitsVal cs * 10 + (c.toNat - 48) := by
  simp [digitsVal, List.foldl_append]

theorem decCharsCore_val : ∀ fuel n, n < 10 ^ fuel → digitsVal (decCharsCore fuel n) = n := by
  intro fuel
  induction fuel with
  | zero =>
    intro n hn
    interval_cases n
    rfl
  | succ f ih =>
    intro n hn
    by_cases h : n < 10
    · simp [decCharsCore, h, digitsVal, digitChar_toNat h]
    · have hdiv : n / 10 < 10 ^ f := by
        rw [Nat.div_lt_iff_lt_mul (by norm_num)]
        calc n < 10 ^ (f + 1) := hn
        _ = 10 ^ f * 10 := by ring
      simp only [decCharsCore, h, if_false, digitsVal_append_singleton]
      rw [ih (n / 10) hdiv, digitChar_toNat (Nat.mod_lt n (by norm_num))]
      omega

theorem natStr_val (n : Nat) : digitsVal (natStr n).data = n := by
  have h : n < 10 ^ (n + 1) :=
    lt_of_lt_of_le (Nat.lt_pow_self (by norm_num) n)
      (Nat.pow_le_pow_right (by norm_num) (Nat.le_succ n))
  simpa [natStr] using decCharsCore_val (n + 1) n h

theorem natStr_injective : Function.Injective natStr := by
  intro a b h
  have ha := natStr_val a
  have hb := natStr_val b
  rw [h] at ha
  omega

/-! ## Collision resolution (`resolveCollision`)

Used by every variant: keep the requested filename if it is free at the destination
directory, otherwise try `name_1.ext`, `name_2.ext`, … until a free name is found. -/

/-- The suffixed candidate filename `f"{name}_{counter}{ext}"`. -/
def suffixed (name ext : String) (k : Nat) : String := name ++ "_" ++ natStr k ++ ext

/-- The `while os.path.exists(target_path)` loop, fueled so that it is structurally
recursive; `existing.length + 1` iterations always suffice. -/
def collideLoop (existing : List String) (name ext : String) : Nat → Nat → String
  | 0, k => suffixed name ext k
  | fuel + 1, k =>
    if suffixed name ext k ∈ existing then collideLoop existing name ext fuel (k + 1)
    else suffixed name ext k

/-- Collision resolution over the list of names already present at the destination. -/
def resolve_collision (existing : List String) (filename : String) : String :=
  if filename ∈ existing then
    collideLoop existing (splitext filename).1 (splitext filename).2 (existing.length + 1) 1
  else filename

theorem suffixed_injective (name ext : String) : Function.Injective (suffixed name ext) := by
  intro a b h
  have hdata : (suffixed name ext a).data = (suffixed name ext b).data := by rw [h]
  simp only [suffixed, String.data_append] at hdata
  have h1 := List.append_cancel_right hdata
  have h2 := List.append_cancel_left h1
  exact natStr_injective (congrArg String.mk h2)

theorem exists_free_suffix (existing : List String) (name ext : String) :
    ∃ k, 1 ≤ k ∧ k ≤ existing.length + 1 ∧ suffixed name ext k ∉ existing := by
  by_contra hcon
  push_neg at hcon
  have hmaps : ∀ k ∈ Finset.Icc 1 (existing.length + 1),
      suffixed name ext k ∈ existing.toFinset := by
    intro k hk
    rw [Finset.mem_Icc] at hk
    exact List.mem_toFinset.mpr (hcon k hk.1 hk.2)
  have hinj : Set.InjOn (suffixed name ext) (Finset.Icc 1 (existing.length + 1)) :=
    fun a _ b _ hab => suffixed_injective name ext hab
  have hcard := Finset.card_le_card_of_injOn _ hmaps hinj
  rw [Nat.card_Icc] at hcard
  have hle := existing.toFinset_card_le
  omega

theorem collideLoop_spec (existing : List String) (name ext : String) :
    ∀ fuel k, (∃ j, k ≤ j ∧ j < k + fuel ∧ suffixed name ext j ∉ existing) →
    ∃ m, k ≤ m ∧ collideLoop existing name ext fuel k = suffixed name ext m ∧
      suffixed name ext m ∉ existing ∧
      ∀ j, k ≤ j → j < m → suffixed name ext j ∈ existing := by
  intro fuel
  induction fuel with
  | zero =>
    intro k hex
    obtain ⟨j, hj1, hj2, _⟩ := hex
    omega
  | succ f ih =>
    intro k hex
    by_cases hmem : suffixed name ext k ∈ existing
    · have hex' : ∃ j, k + 1 ≤ j ∧ j < (k + 1) + f ∧ suffixed name ext j ∉ existing := by
        obtain ⟨j, hj1, hj2, hj3⟩ := hex
        refine ⟨j, ?_, by omega, hj3⟩
        rcases Nat.eq_or_lt_of_le hj1 with heq | hlt
        · exact absurd hmem (heq ▸ hj3)
        · omega
      obtain ⟨m, hm1, hm2, hm3, hm4⟩ := ih (k + 1) hex'
      refine ⟨m, by omega, ?_, hm3, ?_⟩
      · simpa [collideLoop, hmem] using hm2
      · intro j hj1 hj2
        rcases Nat.eq_or_lt_of_le hj1 with heq | hlt
        · exact heq ▸ hmem
        · exact hm4 j hlt hj2
    · exact ⟨k, le_refl k, by simp [collideLoop, hmem], hmem, fun j h1 h2 => absurd h1 (by omega)⟩

/-- C6. Collision resolution never overwrites an existing destination file: the
chosen name is the unsuffixed filename when it is free, and otherwise `name_k.ext`
for the smallest `k ≥ 1` whose suffixed name is free; in either case the chosen name
is not among the existing names, so any pre-existing file is left untouched. -/
theorem c6_resolve_collision_spec (existing : List String) (filename : String) :
    resolve_collision existing filename ∉ existing ∧
    (filename ∉ existing → resolve_collision existing filename = filename) ∧
    (filename ∈ existing →
      ∃ k, 1 ≤ k ∧
        resolve_collision existing filename =
          suffixed (splitext filename).1 (splitext filename).2 k ∧
        suffixed (splitext filename).1 (splitext filename).2 k ∉ existing ∧
        ∀ j, 1 ≤ j → j < k →
          suffixed (splitext filename).1 (splitext filename).2 j ∈ existing) := by
  by_cases hmem : filename ∈ existing
  · obtain ⟨k0, hk1, hk2, hk3⟩ :=
      exists_free_suffix existing (splitext filename).1 (splitext filename).2
    obtain ⟨m, hm1, hm2, hm3, hm4⟩ :=
      collideLoop_spec existing (splitext filename).1 (splitext filename).2
        (existing.length + 1) 1 ⟨k0, hk1, by omega, hk3⟩
    have hres : resolve_collision existing filename =
        suffixed (splitext filename).1 (splitext filename).2 m := by
      simp [resolve_collision, hmem, hm2]
    exact ⟨by rw [hres]; exact hm3, fun h => absurd hmem h, fun _ => ⟨m, hm1, hres, hm3, hm4⟩⟩
  · have hres : resolve_collision existing filename = filename := by
      simp [resolve_collision, hmem]
    exact ⟨by rw [hres]; exact hmem, fun _ => hres, fun h => absurd h hmem⟩

/-- Witness for C6 at a concrete destination state: with `a.jpg` and `a_1.jpg` already
present, the resolver picks `a_2.jpg` and does not overwrite either existing file. -/
theorem c6_resolve_collision_spec_witness :
    resolve_collision ["a.jpg", "a_1.jpg"] "a.jpg" = "a_2.jpg" ∧
    resolve_collision ["a.jpg", "a_1.jpg"] "a.jpg" ∉ ["a.jpg", "a_1.jpg"] :=
  ⟨by decide, (c6_resolve_collision_spec ["a.jpg", "a_1.jpg"] "a.jpg").1⟩

/-! ## Perceptual digests (`calculate_image_hash` vs `calculate_image_hash_fast`)

Both digests consume the 64 grayscale samples of the 8×8 luminance thumbnail.  The
reference implementation compares each sample against the mean `sum(pixels) /
len(pixels)`; because the samples are integers, `pixel >= sum/len` holds exactly when
`pixel * len >= sum` (the Python float arithmetic is exact here: the sum is far below
2^53 and the comparison is against an integer sample), which is how the threshold is
embedded; `ref_threshold_eq_rat` below certifies the equivalence with the exact
rational mean.  The fast variant floors the mean with `sum >> 6` and packs bit `i`
at the least-significant end with `bits |= 1 << i`. -/

/-- Value of `int(bits, 2)` over a string of `'0'`/`'1'` characters. -/
def bitStringToNat (cs : List Char) : Nat :=
  cs.foldl (fun a c => 2 * a + if c = '1' then 1 else 0) 0

/-- Fueled hexadecimal digits of a natural number, lowercase, most significant first;
16 digits of fuel cover every 64-bit value produced by the digests. -/
def hexCharsCore : Nat → Nat → List Char
  | 0, _ => []
  | fuel + 1, n =>
    if n < 16 then [Nat.digitChar n]
    else hexCharsCore fuel (n / 16) ++ [Nat.digitChar (n % 16)]

/-- Pad a digit list with leading `'0'` to width 16 (`str.zfill(16)` / format `016x`). -/
def zfill16 (cs : List Char) : List Char := List.replicate (16 - cs.length) '0' ++ cs

/-- The 16-hex-character digest rendering shared by `hex(n)[2:].zfill(16)` and
`f"{n:016x}"`, which agree on every 64-bit value. -/
def hexDigest16 (n : Nat) : String := String.mk (zfill16 (hexCharsCore 16 n))

/-- Content-hash body of `calculate_image_hash` (LANCZOS path, media_organizer.py and
the other dictionary/SQLite variants): bit `i` is `'1'` iff sample `i` is at least the
mean, bits packed in raster order most-significant first. -/
def content_hash_ref (pixels : List Nat) : String :=
  let bits := pixels.map (fun p => if pixels.sum ≤ p * pixels.length then '1' else '0')
  hexDigest16 (bitStringToNat bits)

/-- Content-hash body of `calculate_image_hash_fast` (media_organizer_ultra.py):
integer mean `sum >> 6`, bit for sample `i` placed at bit position `i`. -/
def content_hash_fast (pixels : List Nat) : String :=
  let avg := pixels.sum >>> 6
  let bits := pixels.enum.foldl
    (fun acc ip => if avg ≤ ip.2 then acc ||| (1 <<< ip.1) else acc) 0
  hexDigest16 bits

/-- The embedded integer threshold agrees with the exact rational mean used by the
Python reference (`pixel >= sum(pixels) / len(pixels)`). -/
theorem ref_threshold_eq_rat (pixels : List Nat) (p : Nat) (h : 0 < pixels.length) :
    (pixels.sum ≤ p * pixels.length) ↔
      ((pixels.sum : ℚ) / (pixels.length : ℚ) ≤ (p : ℚ)) := by
  rw [div_le_iff₀ (by exact_mod_cast h)]
  exact_mod_cast Iff.rfl

/-- Witness that `ref_threshold_eq_rat` applies at a concrete grid. -/
theorem ref_threshold_eq_rat_witness :
    0 < ([3, 5] : List Nat).length ∧
      (([3, 5] : List Nat).sum ≤ 4 * ([3, 5] : List Nat).length ↔
        ((([3, 5] : List Nat).sum : ℚ) / (([3, 5] : List Nat).length : ℚ) ≤ (4 : ℚ))) :=
  ⟨by decide, ref_threshold_eq_rat [3, 5] 4 (by decide)⟩

/-! ## The filesystem model

Paths are segment lists; a file's bytes are abstracted by `FileData`, carrying exactly
the quantities the scripts observe: byte length, exact digest, perceptual digest (absent
when image decoding fails), and whether PIL `verify` accepts the file.  `shutil.copy2`
duplicates the content, hence the `FileData`, verbatim. -/

/-- A filesystem path, as a list of segments. -/
abbrev FsPath := List String

/-- Observable content of one file. -/
structure FileData where
  size : Nat
  file_hash : String
  content_hash : Option String
  valid_image : Bool
deriving DecidableEq

/-- One regular file on disk. -/
structure FSEntry where
  path : FsPath
  data : FileData
deriving DecidableEq

/-- Filesystem state: existing directories and regular files. -/
structure FS where
  dirs : List FsPath
  files : List FSEntry
deriving DecidableEq

/-- Model of `os.path.exists` on a directory path. -/
def dirExists (fs : FS) (p : FsPath) : Bool := decide (p ∈ fs.dirs)

/-- Model of `os.path.basename`. -/
def basename (p : FsPath) : String := p.getLastD ""

/-- Model of `os.makedirs`. -/
def FS.mkdir (fs : FS) (p : FsPath) : FS := { fs with dirs := fs.dirs ++ [p] }

/-- Model of `os.remove`. -/
def FS.removeFile (fs : FS) (p : FsPath) : FS :=
  { fs with files := fs.files.filter (fun e => decide (e.path ≠ p)) }

/-- Model of `shutil.copy2`: place a verbatim copy of the content at the destination path. -/
def FS.addFile (fs : FS) (e : FSEntry) : FS := { fs with files := fs.files ++ [e] }

/-- Is a path under `root` with no intermediate directory skipped by the walker? -/
def underRoot (root : FsPath) (p : FsPath) : Bool :=
  root.isPrefixOf p && decide (root.length < p.length) &&
    ((p.drop root.length).dropLast.all (fun seg => ¬ should_skip_directory seg))

/-- Model of `os.walk` with the `should_skip_directory` pruning: every regular file below the
root whose intermediate directories are not skipped, in on-disk order. -/
def walk (fs : FS) (root : FsPath) : List FSEntry :=
  fs.files.filter (fun e => underRoot root e.path)

/-- Filenames already present in one destination directory, for collision checks. -/
def namesInDir (fs : FS) (dir : FsPath) : List String :=
  fs.files.filterMap (fun e => if e.path.dropLast = dir then some (basename e.path) else none)

/-- Function `get_target_directory`: videos to `mp4/`, archives to `zip/`, images at the root. -/
def get_target_directory (target_dir : FsPath) : FileType → FsPath
  | .video => target_dir ++ ["mp4"]
  | .archive => target_dir ++ ["zip"]
  | _ => target_dir

/-- Function `ensure_directory_exists`. -/
def ensure_directory_exists (fs : FS) (p : FsPath) : FS :=
  if dirExists fs p then fs else fs.mkdir p

/-! ## The in-memory pipeline (media_organizer.py)

`process_media_files` scans the target tree, then the source tree, into per-type
dictionaries keyed by basename, groups the records by exact hash and (for images,
when enabled) by perceptual hash, and resolves each group. -/

/-- One entry of the `all_files` dictionaries.  `data` is the on-disk content backing
the record, re-read by `shutil.copy2` at copy time. -/
structure FileInfo where
  path : FsPath
  size : Nat
  hash : String
  content_hash : Option String
  is_target : Bool
  file_type : FileType
  data : FileData
deriving DecidableEq

/-- Build the dictionary record for one walked file. -/
def mkFileInfo (e : FSEntry) (ft : FileType) (is_target : Bool) : FileInfo :=
  { path := e.path, size := e.data.size, hash := e.data.file_hash,
    content_hash := if ft = .image then e.data.content_hash else none,
    is_target := is_target, file_type := ft, data := e.data }

/-- Target-directory scan loop: every file type is recorded; a file classified
`image` that fails `is_image_file` is dropped. -/
def target_scan (fs : FS) (target_dir : FsPath) : List FileInfo :=
  (walk fs target_dir).filterMap (fun e =>
    let ft := get_file_type (basename e.path)
    if ft = .image ∧ e.data.valid_image = false then none
    else some (mkFileInfo e ft true))

/-- Source-directory scan loop: only images, videos and archives are recorded; a file
classified `image` that fails `is_image_file` is dropped. -/
def source_scan (fs : FS) (source_dir : FsPath) : List FileInfo :=
  (walk fs source_dir).filterMap (fun e =>
    let ft := get_file_type (basename e.path)
    if ft = .image ∨ ft = .video ∨ ft = .archive then
      if ft = .image ∧ e.data.valid_image = false then none
      else some (mkFileInfo e ft false)
    else none)

/-- Insertion-ordered multimap, modelling both the `all_files[type]` dictionaries and
the `hash_groups` dictionary. -/
def assocAppend (d : List (String × List FileInfo)) (key : String) (v : FileInfo) :
    List (String × List FileInfo) :=
  if d.any (fun kv => kv.1 == key) then
    d.map (fun kv => if kv.1 == key then (kv.1, kv.2 ++ [v]) else kv)
  else d ++ [(key, [v])]

/-- The per-type `all_files` dictionary, keyed by basename, in insertion order. -/
def buildDict (infos : List FileInfo) : List (String × List FileInfo) :=
  infos.foldl (fun d i => assocAppend d (basename i.path) i) []

/-- Iterating `all_files[file_type].items()` and flattening the per-filename lists. -/
def dictFlatten (d : List (String × List FileInfo)) : List FileInfo :=
  (d.map Prod.snd).flatten

/-- Add one record to `hash_groups`: always under its exact hash (when non-empty), and
additionally under its perceptual hash when the type is image, content hashing is
enabled, the hash is present and differs from the exact hash. -/
def addToGroups (uch : Bool) (t : FileType) (g : List (String × List FileInfo))
    (i : FileInfo) : List (String × List FileInfo) :=
  let g1 := if i.hash ≠ "" then assocAppend g i.hash i else g
  match i.content_hash with
  | some ch => if t = .image ∧ uch = true ∧ ch ≠ i.hash then assocAppend g1 ch i else g1
  | none => g1

/-- The `hash_groups` dictionary for one file type. -/
def buildGroups (uch : Bool) (t : FileType) (d : List (String × List FileInfo)) :
    List (String × List FileInfo) :=
  (dictFlatten d).foldl (addToGroups uch t) []

/-- A side effect applied during resolution. -/
inductive Effect where
  | copied (f : FileInfo) (dest : FsPath)
  | deleted (f : FileInfo)
  | skipped (f : FileInfo)
deriving DecidableEq

/-- The record an effect was applied to. -/
def Effect.info : Effect → FileInfo
  | .copied f _ => f
  | .deleted f => f
  | .skipped f => f

/-- Resolution state: the four counters, the `processed_files_set`, the filesystem,
and the chronological effect trace. -/
structure RState where
  copied : Nat
  skipped : Nat
  replaced : Nat
  deleted : Nat
  procSet : List FsPath
  fs : FS
  effects : List Effect
deriving DecidableEq

/-- Function `unique_files`: drop later references to an already-seen path, preserving order. -/
def unique_files (l : List FileInfo) : List FileInfo :=
  l.foldl (fun acc i => if acc.any (fun j => j.path == i.path) then acc else acc ++ [i]) []

/-- Python `max(unique_files, key=lambda x: x['size'])`: the FIRST element of maximal
size (later elements replace the current best only when strictly larger). -/
def largest_file : List FileInfo → Option FileInfo
  | [] => none
  | h :: t => some (t.foldl (fun best x => if best.size < x.size then x else best) h)

/-- Copy `f` into the type destination directory under a collision-free name, count it
(`copied` for the unique-file site, `replaced` for the group-winner site), mark the
source path processed. -/
def copyInto (asReplaced : Bool) (ttd : FsPath) (s : RState) (f : FileInfo) : RState :=
  let dest := ttd ++ [resolve_collision (namesInDir s.fs ttd) (basename f.path)]
  { s with fs := s.fs.addFile ⟨dest, f.data⟩,
           copied := if asReplaced then s.copied else s.copied + 1,
           replaced := if asReplaced then s.replaced + 1 else s.replaced,
           procSet := f.path :: s.procSet,
           effects := s.effects ++ [.copied f dest] }

/-- Delete loop body for the target-winner branch (`file_info != largest_file`). -/
def delStepKeep (largest : FileInfo) (s : RState) (f : FileInfo) : RState :=
  if f ≠ largest ∧ f.path ∉ s.procSet then
    { s with fs := s.fs.removeFile f.path, deleted := s.deleted + 1,
             procSet := f.path :: s.procSet, effects := s.effects ++ [.deleted f] }
  else s

/-- Delete loop body for the source-winner branch (delete every target member). -/
def delStepAll (s : RState) (f : FileInfo) : RState :=
  if f.path ∉ s.procSet then
    { s with fs := s.fs.removeFile f.path, deleted := s.deleted + 1,
             procSet := f.path :: s.procSet, effects := s.effects ++ [.deleted f] }
  else s

/-- Skip loop body for the target-winner branch (skip every source member). -/
def skipStepAll (s : RState) (f : FileInfo) : RState :=
  if f.path ∉ s.procSet then
    { s with skipped := s.skipped + 1, procSet := f.path :: s.procSet,
             effects := s.effects ++ [.skipped f] }
  else s

/-- Skip loop body for the source-winner branch (`file_info != largest_file`). -/
def skipStepKeep (largest : FileInfo) (s : RState) (f : FileInfo) : RState :=
  if f ≠ largest ∧ f.path ∉ s.procSet then
    { s with skipped := s.skipped + 1, procSet := f.path :: s.procSet,
             effects := s.effects ++ [.skipped f] }
  else s

/-- Resolution of one hash group (media_organizer.py, lines 295–390). -/
def processGroupA (ttd : FsPath) (st : RState) (grp : String × List FileInfo) : RState :=
  let uniq := unique_files grp.2
  if uniq.length ≤ 1 then
    match uniq with
    | [f] => if f.is_target = false ∧ f.path ∉ st.procSet then copyInto false ttd st f else st
    | _ => st
  else
    match largest_file uniq with
    | none => st
    | some largest =>
      let target_files := uniq.filter (fun f => f.is_target = true)
      let source_files := uniq.filter (fun f => f.is_target = false)
      if largest.is_target = true then
        let st1 := target_files.foldl (delStepKeep largest) st
        source_files.foldl skipStepAll st1
      else
        let st1 := target_files.foldl delStepAll st
        let st2 := if largest.path ∉ st1.procSet then copyInto true ttd st1 largest else st1
        source_files.foldl (skipStepKeep largest) st2

/-- Resolution of a whole list of hash groups, in dictionary order. -/
def processGroupsA (ttd : FsPath) (st : RState) (groups : List (String × List FileInfo)) :
    RState :=
  groups.foldl (processGroupA ttd) st

/-- Fresh resolution state over a filesystem. -/
def initState (fs : FS) : RState := ⟨0, 0, 0, 0, [], fs, []⟩

/-- The per-type body of the `for file_type in ['image', 'video', 'archive']` loop. -/
def processTypeA (uch : Bool) (target_dir : FsPath) (t : FileType) (infos : List FileInfo)
    (fs : FS) : RState :=
  let d := buildDict (infos.filter (fun i => i.file_type = t))
  if d.isEmpty then initState fs
  else
    let ttd := get_target_directory target_dir t
    let fs1 := ensure_directory_exists fs ttd
    processGroupsA ttd (initState fs1) (buildGroups uch t d)

/-- Function `process_media_files` (media_organizer.py): create the target root if missing, scan
target then source, resolve each of the three processed types, and return
`(total_copied + total_replaced, total_skipped, total_deleted)` together with the
final filesystem and the effect trace. -/
def process_media_files (fs : FS) (source_dir target_dir : FsPath) (uch : Bool) :
    (Nat × Nat × Nat) × FS × List Effect :=
  let fs0 := if dirExists fs target_dir then fs else fs.mkdir target_dir
  let infos := target_scan fs0 target_dir ++ source_scan fs0 source_dir
  let s1 := processTypeA uch target_dir .image infos fs0
  let s2 := processTypeA uch target_dir .video infos s1.fs
  let s3 := processTypeA uch target_dir .archive infos s2.fs
  ((s1.copied + s2.copied + s3.copied + (s1.replaced + s2.replaced + s3.replaced),
    s1.skipped + s2.skipped + s3.skipped,
    s1.deleted + s2.deleted + s3.deleted),
   s3.fs, s1.effects ++ s2.effects ++ s3.effects)

/-- Function `main` (media_organizer.py): exit 1 when a source root is missing or the target
list length mismatches, otherwise run each source/target pair in precise mode and
exit 0 with the accumulated counters. -/
def mediaMain (fs : FS) (sources targets : List FsPath) : Nat × (Nat × Nat × Nat) × FS :=
  if sources.any (fun s => !dirExists fs s) then (1, (0, 0, 0), fs)
  else if targets.length > 1 ∧ targets.length ≠ sources.length then (1, (0, 0, 0), fs)
  else
    let r := sources.enum.foldl
      (fun (acc : (Nat × Nat × Nat) × FS) is =>
        let target_dir := if targets.length = 1 then targets.headD [] else targets.getD is.1 []
        let run := process_media_files acc.2 is.2 target_dir true
        ((acc.1.1 + run.1.1, acc.1.2.1 + run.1.2.1, acc.1.2.2 + run.1.2.2), run.2.1))
      ((0, 0, 0), fs)
    (0, r.1, r.2)

/-! ## The SQLite-backed pipeline (media_organizer_optimized.py, media_organizer_ultra.py)

The `files` table becomes a list of rows; `INSERT OR IGNORE` skips rows whose path is
already present; `UPDATE files SET processed = TRUE WHERE path = ?` maps over the rows.
`process_duplicates` walks, per file type, the DISTINCT `file_hash` values only, and
fetches each group with `ORDER BY size DESC, is_target DESC`. -/

/-- One row of the `files` table.  `data` is the on-disk content backing the row,
re-read by `shutil.copy2` at copy time. -/
structure DBRow where
  path : FsPath
  filename : String
  file_type : FileType
  size : Nat
  file_hash : String
  content_hash : Option String
  is_target : Bool
  processed : Bool
  data : FileData
deriving DecidableEq

/-- Statement `INSERT OR IGNORE INTO files`: first writer wins on the unique `path` column. -/
def db_insert_or_ignore (db : List DBRow) (r : DBRow) : List DBRow :=
  if db.any (fun q => q.path == r.path) then db else db ++ [r]

/-- Statement `UPDATE files SET processed = TRUE WHERE path = ?`. -/
def markProcessed (db : List DBRow) (p : FsPath) : List DBRow :=
  db.map (fun q => if q.path == p then { q with processed := true } else q)

/-- Method `scan_directory` (media_organizer_optimized.py): record every image (validated by
`is_image_file`), video and archive below the root; the perceptual hash is computed
only for images in content-hash mode and is absent when decoding fails. -/
def scan_directory (db : List DBRow) (fs : FS) (dir : FsPath) (is_target : Bool)
    (uch : Bool) : List DBRow :=
  (walk fs dir).foldl (fun db e =>
    let ft := get_file_type (basename e.path)
    if ft = .other then db
    else if ft = .image ∧ e.data.valid_image = false then db
    else
      let ch := if ft = .image ∧ uch = true then e.data.content_hash else none
      db_insert_or_ignore db
        ⟨e.path, basename e.path, ft, e.data.size, e.data.file_hash, ch,
          is_target, false, e.data⟩) db

/-- Method `scan_directory` (media_organizer_ultra.py): `is_image_file_fast` trusts the
extension alone, so images are never validated; a corrupt image still receives its
exact hash, and only the perceptual hash is dropped (`calculate_image_hash_fast`
swallows the decode error). -/
def scan_directory_ultra (db : List DBRow) (fs : FS) (dir : FsPath) (is_target : Bool)
    (uch : Bool) : List DBRow :=
  (walk fs dir).foldl (fun db e =>
    let ft := get_file_type (basename e.path)
    if ft = .other then db
    else
      let ch := if ft = .image ∧ uch = true ∧ e.data.valid_image = true then
          e.data.content_hash else none
      db_insert_or_ignore db
        ⟨e.path, basename e.path, ft, e.data.size, e.data.file_hash, ch,
          is_target, false, e.data⟩) db

/-- The `ORDER BY size DESC, is_target DESC` ordering: larger first, and among equal
sizes a target row before a source row. -/
def rowGE (a b : DBRow) : Prop :=
  b.size < a.size ∨ (a.size = b.size ∧ (b.is_target = true → a.is_target = true))

instance rowGE.decidableRel : DecidableRel rowGE := fun a b => by
  unfold rowGE
  infer_instance

instance rowGE.isTotal : IsTotal DBRow rowGE := by
  constructor
  intro a b
  by_cases h : a.size = b.size
  · by_cases ht : b.is_target = true
    · by_cases ha : a.is_target = true
      · exact Or.inl (Or.inr ⟨h, fun _ => ha⟩)
      · exact Or.inr (Or.inr ⟨h.symm, fun _ => ht⟩)
    · exact Or.inl (Or.inr ⟨h, fun hb => absurd hb ht⟩)
  · rcases Nat.lt_or_ge a.size b.size with hlt | hge
    · exact Or.inr (Or.inl hlt)
    · exact Or.inl (Or.inl (lt_of_le_of_ne hge (fun e => h e.symm)))

instance rowGE.isTrans : IsTrans DBRow rowGE := by
  constructor
  intro a b c hab hbc
  rcases hab with h1 | ⟨h1, h1'⟩ <;> rcases hbc with h2 | ⟨h2, h2'⟩
  · exact Or.inl (by omega)
  · exact Or.inl (by omega)
  · exact Or.inl (by omega)
  · exact Or.inr ⟨by omega, fun hc => h1' (h2' hc)⟩

/-- The fetched group, sorted as the SQL query orders it. -/
def sortRows (rows : List DBRow) : List DBRow := List.insertionSort rowGE rows

/-- A side effect applied by the SQLite-backed resolver. -/
inductive BEffect where
  | copied (r : DBRow) (dest : FsPath)
  | deleted (r : DBRow)
  | skipped (r : DBRow)
deriving DecidableEq

/-- The row a SQLite-resolver effect was applied to. -/
def BEffect.row : BEffect → DBRow
  | .copied r _ => r
  | .deleted r => r
  | .skipped r => r

/-- Resolver state: counters, the `files` table, the filesystem, the effect trace. -/
structure BState where
  copied : Nat
  skipped : Nat
  replaced : Nat
  deleted : Nat
  db : List DBRow
  fs : FS
  effects : List BEffect
deriving DecidableEq

/-- Copy a row's file into the destination directory under a collision-free name,
count it, and mark the row processed. -/
def copyIntoB (asReplaced : Bool) (ttd : FsPath) (s : BState) (r : DBRow) : BState :=
  let dest := ttd ++ [resolve_collision (namesInDir s.fs ttd) (basename r.path)]
  { s with fs := s.fs.addFile ⟨dest, r.data⟩,
           copied := if asReplaced then s.copied else s.copied + 1,
           replaced := if asReplaced then s.replaced + 1 else s.replaced,
           db := markProcessed s.db r.path,
           effects := s.effects ++ [.copied r dest] }

/-- Model of `os.remove` of one row's file plus the processed-flag update. -/
def deleteB (s : BState) (r : DBRow) : BState :=
  { s with fs := s.fs.removeFile r.path, deleted := s.deleted + 1,
           db := markProcessed s.db r.path, effects := s.effects ++ [.deleted r] }

/-- Count a redundant source row as skipped and mark it processed. -/
def skipB (s : BState) (r : DBRow) : BState :=
  { s with skipped := s.skipped + 1, db := markProcessed s.db r.path,
           effects := s.effects ++ [.skipped r] }

/-- Resolution of one fetched hash group (media_organizer_optimized.py lines 311–401;
media_organizer_ultra.py is line-for-line the same logic).  The guards read the
`processed` flags of the fetched snapshot `dup`, exactly as the Python loops read the
tuples fetched before any update of this group. -/
def processHashGroupB (ttd : FsPath) (st : BState) (dup : List DBRow) : BState :=
  if dup.length ≤ 1 then
    match dup with
    | [r] => if r.is_target = false ∧ r.processed = false then copyIntoB false ttd st r else st
    | _ => st
  else
    match dup with
    | [] => st
    | largest :: rest =>
      if largest.is_target = true then
        let st1 := rest.foldl
          (fun s r => if r.is_target = true ∧ r.processed = false then deleteB s r else s) st
        let st2 := (largest :: rest).foldl
          (fun s r => if r.is_target = false ∧ r.processed = false then skipB s r else s) st1
        { st2 with db := markProcessed st2.db largest.path }
      else
        let st1 := (largest :: rest).foldl
          (fun s r => if r.is_target = true ∧ r.processed = false then deleteB s r else s) st
        let st2 := if largest.processed = false then copyIntoB true ttd st1 largest else st1
        rest.foldl
          (fun s r => if r.is_target = false ∧ r.processed = false then skipB s r else s) st2

/-- First-occurrence determinization of `SELECT DISTINCT file_hash`. -/
def firstDedup (l : List String) : List String :=
  l.foldl (fun acc h => if h ∈ acc then acc else acc ++ [h]) []

/-- Per-type body of `process_duplicates`: only the exact-hash space is walked; each
group is re-fetched from the current table and sorted by the SQL ordering. -/
def processTypeB (t : FileType) (target_dir : FsPath) (st : BState) : BState :=
  let ttd := get_target_directory target_dir t
  let st0 := { st with fs := ensure_directory_exists st.fs ttd }
  let hvs := firstDedup ((st0.db.filter (fun r => r.file_type = t)).map (fun r => r.file_hash))
  hvs.foldl (fun s hv =>
    processHashGroupB ttd s
      (sortRows (s.db.filter (fun r => r.file_hash = hv ∧ r.file_type = t)))) st0

/-- Method `process_duplicates`: the three file types in order. -/
def process_duplicates (target_dir : FsPath) (st : BState) : BState :=
  processTypeB .archive target_dir (processTypeB .video target_dir
    (processTypeB .image target_dir st))

/-- Method `process_media_files` (media_organizer_optimized.py): clear the table, scan target
then source, resolve duplicates; returns `(copied + replaced, skipped, deleted)` and
the final state. -/
def process_media_files_B (fs : FS) (source_dir target_dir : FsPath) (uch : Bool) :
    (Nat × Nat × Nat) × BState :=
  let fs0 := if dirExists fs target_dir then fs else fs.mkdir target_dir
  let db1 := scan_directory [] fs0 target_dir true uch
  let db2 := scan_directory db1 fs0 source_dir false uch
  let stF := process_duplicates target_dir ⟨0, 0, 0, 0, db2, fs0, []⟩
  ((stF.copied + stF.replaced, stF.skipped, stF.deleted), stF)

/-! ## Concrete scenarios

Digest strings are abstract: two files carry the same digest exactly when their
contents agree under the corresponding hash. -/

/-- Scenario B target file: `a.jpg`, 100 KB, perceptual hash shared with the source. -/
def dataTa : FileData := ⟨102400, "ha", some "hc", true⟩

/-- Scenario B source file: `b.jpg`, 800 KB, same perceptual hash, different bytes. -/
def dataSb : FileData := ⟨819200, "hb", some "hc", true⟩

/-- Scenario B filesystem: both roots exist, one file in each tree. -/
def fsScenB : FS := ⟨[["t"], ["s"]], [⟨["t", "a.jpg"], dataTa⟩, ⟨["s", "b.jpg"], dataSb⟩]⟩

/-- C1. The in-memory resolver (media_organizer.py) walks both hash spaces: on
Scenario B it returns `(1 copied, 0 skipped, 1 deleted)` and the smaller target
`a.jpg` is gone from disk.  The SQLite resolver (media_organizer_optimized.py)
iterates `SELECT DISTINCT file_hash` only, never the content-hash space, so the same
input returns `(1 copied, 0 skipped, 0 deleted)` and `a.jpg` survives — the stored
and indexed `content_hash` column is never consulted during resolution. -/
theorem c1_content_space_walk :
    (process_media_files fsScenB ["s"] ["t"] true).1 = (1, 0, 1) ∧
    (⟨["t", "a.jpg"], dataTa⟩ : FSEntry) ∉ (process_media_files fsScenB ["s"] ["t"] true).2.1.files ∧
    (process_media_files_B fsScenB ["s"] ["t"] true).1 = (1, 0, 0) ∧
    (⟨["t", "a.jpg"], dataTa⟩ : FSEntry) ∈ (process_media_files_B fsScenB ["s"] ["t"] true).2.fs.files := by
  refine ⟨by decide, by decide, by decide, by decide⟩

/-- A video file present identically in both trees (Scenario A shape, video type). -/
def dataVid : FileData := ⟨512000, "hv", none, true⟩

/-- Filesystem for the idempotence check. -/
def fsScen2 : FS := ⟨[["t"], ["s"]], [⟨["t", "v.mp4"], dataVid⟩, ⟨["s", "v.mp4"], dataVid⟩]⟩

/-- C2, counterexample. A successful first run returns `(0, 1, 0)` and leaves the
files untouched, yet the second run on the resulting state again returns `(0, 1, 0)`,
not `(0, 0, 0)`: no processed flag survives between runs (the optimized variant even
clears its table at the start of `process_media_files`), so the redundant source file
is skipped — and counted — again. -/
theorem c2_second_run_counterexample :
    (process_media_files (process_media_files fsScen2 ["s"] ["t"] true).2.1 ["s"] ["t"] true).1
        ≠ (0, 0, 0) := by
  decide

/-- C2, amended. Re-running the pipeline after a successful run performs no copy
and no delete on this state, but re-applies (and re-counts) the skip disposition of
every redundant source file: first run `(0, 1, 0)` with the files unchanged, second
run `(0, 1, 0)` again. -/
theorem c2_second_run_amended :
    (process_media_files fsScen2 ["s"] ["t"] true).1 = (0, 1, 0) ∧
    (process_media_files fsScen2 ["s"] ["t"] true).2.1.files = fsScen2.files ∧
    (process_media_files (process_media_files fsScen2 ["s"] ["t"] true).2.1 ["s"] ["t"] true).1
        = (0, 1, 0) := by
  refine ⟨by decide, by decide, by decide⟩

/-- C3 counterexample, target tree: `a.jpg` with an unrelated hash. -/
def dataC3ta : FileData := ⟨51200, "h1", none, true⟩

/-- C3 counterexample, target tree: `b.jpg`, 100 KB, hash `hh`. -/
def dataC3tb : FileData := ⟨102400, "hh", none, true⟩

/-- C3 counterexample, source tree: `a.jpg`, also 100 KB and hash `hh`. -/
def dataC3sa : FileData := ⟨102400, "hh", none, true⟩

/-- C3 counterexample filesystem. -/
def fsScen3 : FS :=
  ⟨[["t"], ["s"]],
   [⟨["t", "a.jpg"], dataC3ta⟩, ⟨["t", "b.jpg"], dataC3tb⟩, ⟨["s", "a.jpg"], dataC3sa⟩]⟩

/-- C3, counterexample. In the in-memory resolver the winner is Python
`max(..., key=size)`, the first maximum in group order — which here is the
source-origin member even though a target-origin member of equal (maximal) size is in
the group: the equal-sized target `b.jpg` is deleted and the source `a.jpg` is copied
(under the collision name `a_1.jpg`), so the tie is broken toward the source. -/
theorem c3_tie_break_counterexample :
    (process_media_files fsScen3 ["s"] ["t"] true).2.2 =
      [.deleted (mkFileInfo ⟨["t", "b.jpg"], dataC3tb⟩ .image true),
       .copied (mkFileInfo ⟨["s", "a.jpg"], dataC3sa⟩ .image false) ["t", "a_1.jpg"]] ∧
    (mkFileInfo ⟨["t", "b.jpg"], dataC3tb⟩ .image true).is_target = true ∧
    (mkFileInfo ⟨["s", "a.jpg"], dataC3sa⟩ .image false).is_target = false ∧
    (mkFileInfo ⟨["t", "b.jpg"], dataC3tb⟩ .image true).size =
      (mkFileInfo ⟨["s", "a.jpg"], dataC3sa⟩ .image false).size := by
  refine ⟨by decide, by decide, by decide, by decide⟩

/-- C4 counterexample: a target-tree image with no duplicate anywhere. -/
def dataX4 : FileData := ⟨100, "hx", none, true⟩

/-- C4 counterexample filesystem. -/
def fsScen4 : FS := ⟨[["t"], ["s"]], [⟨["t", "x.jpg"], dataX4⟩]⟩

/-- C4, counterexample. A hash group of size one whose sole member is a target
file produces no side effect — but the record is NOT marked processed: the
`if not is_target and not processed` branch has no else, so after the full SQLite
pipeline the lone target row still has `processed = FALSE`. -/
theorem c4_lone_target_counterexample :
    ((process_media_files_B fsScen4 ["s"] ["t"] true).2.db.map
        (fun r => (r.path, r.processed))) = [(["t", "x.jpg"], false)] ∧
    (process_media_files_B fsScen4 ["s"] ["t"] true).1 = (0, 0, 0) := by
  refine ⟨by decide, by decide⟩

/-- C8 counterexample: a corrupt file with a `.jpg` extension in the source tree. -/
def dataBad : FileData := ⟨700, "hbad", some "pc", false⟩

/-- C8 counterexample filesystem. -/
def fsScen8 : FS := ⟨[["s"]], [⟨["s", "bad.jpg"], dataBad⟩]⟩

/-- C8, counterexample. The ultra scanner's `is_image_file_fast` trusts the
extension alone, so a corrupt `.jpg` IS recorded in the inventory — with its exact
hash and no perceptual hash — whereas the validating scanner of the optimized variant
excludes the same file entirely. -/
theorem c8_ultra_inventories_invalid_image :
    (scan_directory_ultra [] fsScen8 ["s"] false true).map
        (fun r => (r.path, r.file_hash, r.content_hash)) =
      [(["s", "bad.jpg"], "hbad", none)] ∧
    scan_directory [] fsScen8 ["s"] false true = [] := by
  refine ⟨by decide, by decide⟩

/-- C10 counterexample filesystem: the source root exists, the target root does not. -/
def fsScen10 : FS := ⟨[["s"]], []⟩

/-- C10, counterexample. The entry point only checks the source roots; with the target root
missing it still returns exit status 0 (the target directory is silently created by
`process_media_files`). -/
theorem c10_missing_target_counterexample :
    (mediaMain fsScen10 [["s"]] [["t"]]).1 = 0 ∧ dirExists fsScen10 ["t"] = false := by
  refine ⟨by decide, by decide⟩

/-- C7, counterexample. On the thumbnail with one bright pixel the reference digest
and the fast digest differ: the reference compares against the exact mean 255/64 and
packs raster-order bits most-significant first (`8000000000000000`), the fast variant
compares against the floored mean `255 >> 6 = 3` and packs bit `i` at position `i`
from the least-significant end (`0000000000000001`). -/
theorem c7_digest_mismatch :
    content_hash_ref (255 :: List.replicate 63 0) = "8000000000000000" ∧
    content_hash_fast (255 :: List.replicate 63 0) = "0000000000000001" ∧
    content_hash_ref (255 :: List.replicate 63 0) ≠
      content_hash_fast (255 :: List.replicate 63 0) := by
  refine ⟨by decide, by decide, by decide⟩

/-- C7, amended. The two digest implementations are distinct hash spaces; they
agree only on special thumbnails, e.g. the all-zero grid, where both produce the
all-ones digest `ffffffffffffffff`. -/
theorem c7_digests_agree_on_constant_grid :
    content_hash_ref (List.replicate 64 0) = content_hash_fast (List.replicate 64 0) ∧
    content_hash_ref (List.replicate 64 0) = "ffffffffffffffff" := by
  refine ⟨by decide, by decide⟩

/-! ## C3: the winner of a sorted group -/

/-- A target-origin row, 100 KB. -/
def rowTieT : DBRow :=
  ⟨["t", "p.jpg"], "p.jpg", .image, 102400, "h", none, true, false, ⟨102400, "h", none, true⟩⟩

/-- A source-origin row of the same size and hash. -/
def rowTieS : DBRow :=
  ⟨["s", "p.jpg"], "p.jpg", .image, 102400, "h", none, false, false, ⟨102400, "h", none, true⟩⟩

/-- Winner selection of the in-memory resolver: the fold behind Python
`max(l, key=size)` returns a member of maximal size (the first one). -/
theorem largest_file_fold_spec : ∀ (t : List FileInfo) (h : FileInfo),
    (t.foldl (fun best x => if best.size < x.size then x else best) h) ∈ h :: t ∧
    ∀ g ∈ h :: t,
      g.size ≤ (t.foldl (fun best x => if best.size < x.size then x else best) h).size := by
  intro t
  induction t with
  | nil =>
    intro h
    refine ⟨List.mem_cons_self h [], ?_⟩
    intro g hg
    rw [List.mem_singleton] at hg
    rw [hg]
    exact le_refl _
  | cons x xs ih =>
    intro h
    rw [List.foldl_cons]
    obtain ⟨hm, hge⟩ := ih (if h.size < x.size then x else h)
    constructor
    · rcases List.mem_cons.mp hm with heq | hmem
      · rw [heq]
        split
        · exact List.mem_cons_of_mem _ (List.mem_cons_self _ _)
        · exact List.mem_cons_self _ _
      · exact List.mem_cons_of_mem _ (List.mem_cons_of_mem _ hmem)
    · intro g hg
      rcases List.mem_cons.mp hg with rfl | hg'
      · have h1 : g.size ≤ (if g.size < x.size then x else g).size := by
          split <;> omega
        exact le_trans h1 (hge _ (List.mem_cons_self _ _))
      · rcases List.mem_cons.mp hg' with rfl | hg2
        · have h1 : g.size ≤ (if h.size < g.size then g else h).size := by
            split <;> omega
          exact le_trans h1 (hge _ (List.mem_cons_self _ _))
        · exact hge g (List.mem_cons_of_mem _ hg2)

/-- C3, amended. The selected winner is always a member of maximal size in its group:
in the SQLite-backed resolvers it is the first element of the `ORDER BY size DESC,
is_target DESC` fetch, and whenever any member of maximal size is target-origin the
winner is target-origin; the in-memory resolver instead takes Python `max` over group
order, which is still of maximal size but — as `c3_tie_break_counterexample` shows —
can hand a size tie to a source-origin member. -/
theorem c3_sorted_winner_spec (rows : List DBRow) (members : List FileInfo) (h : rows ≠ []) :
    ((∃ w rest, sortRows rows = w :: rest ∧
      (∀ r ∈ rows, r.size ≤ w.size) ∧
      (∀ r ∈ rows, r.size = w.size → r.is_target = true → w.is_target = true)) ∧
     (∀ w, largest_file members = some w → w ∈ members ∧ ∀ g ∈ members, g.size ≤ w.size)) := by
  refine ⟨?_, ?_⟩
  case refine_2 =>
    intro w hw
    cases members with
    | nil => cases hw
    | cons m t =>
      rw [largest_file] at hw
      injection hw with hw
      rw [← hw]
      exact largest_file_fold_spec t m
  have hperm : List.Perm (sortRows rows) rows := List.perm_insertionSort rowGE rows
  have hsorted : List.Sorted rowGE (sortRows rows) := List.sorted_insertionSort rowGE rows
  cases hs : sortRows rows with
  | nil =>
    rw [hs] at hperm
    exact absurd (List.perm_nil.mp hperm.symm) h
  | cons w rest =>
    rw [hs] at hperm hsorted
    have hmem : ∀ r ∈ rows, r = w ∨ r ∈ rest := by
      intro r hr
      exact List.mem_cons.mp (hperm.symm.mem_iff.mp hr)
    have hrel : ∀ r ∈ rest, rowGE w r := List.rel_of_sorted_cons hsorted
    refine ⟨w, rest, rfl, ?_, ?_⟩
    · intro r hr
      rcases hmem r hr with rfl | hr'
      · exact le_refl _
      · rcases hrel r hr' with hlt | ⟨heq, _⟩
        · exact le_of_lt hlt
        · omega
    · intro r hr hsize htgt
      rcases hmem r hr with rfl | hr'
      · exact htgt
      · rcases hrel r hr' with hlt | ⟨_, himp⟩
        · omega
        · exact himp htgt

/-- Witness for C3's amended statement on a concrete equal-size group: the target row
is placed first even though the source row precedes it in the fetch. -/
theorem c3_sorted_winner_spec_witness :
    ((∃ w rest, sortRows [rowTieS, rowTieT] = w :: rest ∧
      (∀ r ∈ [rowTieS, rowTieT], r.size ≤ w.size) ∧
      (∀ r ∈ [rowTieS, rowTieT], r.size = w.size → r.is_target = true → w.is_target = true)) ∧
     (∀ w, largest_file [mkFileInfo ⟨["s", "a.jpg"], dataC3sa⟩ .image false,
          mkFileInfo ⟨["t", "b.jpg"], dataC3tb⟩ .image true] = some w →
        w ∈ [mkFileInfo ⟨["s", "a.jpg"], dataC3sa⟩ .image false,
          mkFileInfo ⟨["t", "b.jpg"], dataC3tb⟩ .image true] ∧
        ∀ g ∈ [mkFileInfo ⟨["s", "a.jpg"], dataC3sa⟩ .image false,
          mkFileInfo ⟨["t", "b.jpg"], dataC3tb⟩ .image true], g.size ≤ w.size)) ∧
    sortRows [rowTieS, rowTieT] = [rowTieT, rowTieS] :=
  ⟨c3_sorted_winner_spec [rowTieS, rowTieT]
      [mkFileInfo ⟨["s", "a.jpg"], dataC3sa⟩ .image false,
        mkFileInfo ⟨["t", "b.jpg"], dataC3tb⟩ .image true] (by decide), by decide⟩

/-! ## C4: hash groups of size one -/

/-- C4, amended. For a fetched group of size exactly one: a source-origin,
unprocessed sole member is copied to the destination (under a collision-free name)
and marked processed; a target-origin sole member produces no side effect at all —
the state is returned unchanged, so in particular the record is NOT marked
processed. -/
theorem c4_singleton_group_spec (ttd : FsPath) (st : BState) (r : DBRow) :
    (r.is_target = false → r.processed = false →
      (processHashGroupB ttd st [r]).copied = st.copied + 1 ∧
      (processHashGroupB ttd st [r]).db = markProcessed st.db r.path ∧
      (processHashGroupB ttd st [r]).fs =
        st.fs.addFile ⟨ttd ++ [resolve_collision (namesInDir st.fs ttd) (basename r.path)],
          r.data⟩ ∧
      (processHashGroupB ttd st [r]).effects = st.effects ++
        [.copied r (ttd ++ [resolve_collision (namesInDir st.fs ttd) (basename r.path)])]) ∧
    (r.is_target = true → processHashGroupB ttd st [r] = st) := by
  constructor
  · intro h1 h2
    simp [processHashGroupB, h1, h2, copyIntoB]
  · intro h1
    simp [processHashGroupB, h1]

/-- Witness for C4's amended statement: a concrete source singleton is copied and
marked, a concrete target singleton leaves the state untouched. -/
theorem c4_singleton_group_spec_witness :
    ((processHashGroupB ["t"] ⟨0, 0, 0, 0, [rowTieS], ⟨[["t"]], []⟩, []⟩ [rowTieS]).copied =
        (0 : Nat) + 1 ∧
      (processHashGroupB ["t"] ⟨0, 0, 0, 0, [rowTieS], ⟨[["t"]], []⟩, []⟩ [rowTieS]).db =
        markProcessed [rowTieS] rowTieS.path ∧
      (processHashGroupB ["t"] ⟨0, 0, 0, 0, [rowTieS], ⟨[["t"]], []⟩, []⟩ [rowTieS]).fs =
        FS.addFile ⟨[["t"]], []⟩
          ⟨["t"] ++ [resolve_collision (namesInDir ⟨[["t"]], []⟩ ["t"]) (basename rowTieS.path)],
            rowTieS.data⟩ ∧
      (processHashGroupB ["t"] ⟨0, 0, 0, 0, [rowTieS], ⟨[["t"]], []⟩, []⟩ [rowTieS]).effects =
        [] ++ [.copied rowTieS
          (["t"] ++ [resolve_collision (namesInDir ⟨[["t"]], []⟩ ["t"]) (basename rowTieS.path)])]) ∧
    processHashGroupB ["t"] ⟨0, 0, 0, 0, [rowTieT], ⟨[["t"]], []⟩, []⟩ [rowTieT] =
      ⟨0, 0, 0, 0, [rowTieT], ⟨[["t"]], []⟩, []⟩ :=
  ⟨(c4_singleton_group_spec ["t"] ⟨0, 0, 0, 0, [rowTieS], ⟨[["t"]], []⟩, []⟩ rowTieS).1
      (by decide) (by decide),
   (c4_singleton_group_spec ["t"] ⟨0, 0, 0, 0, [rowTieT], ⟨[["t"]], []⟩, []⟩ rowTieT).2
      (by decide)⟩

/-! ## C10: exit status of the entry point -/

/-- C10, amended. The entry point returns a non-zero status when some SOURCE root
does not exist (or when several target roots are given whose count mismatches the
sources); whenever every source root exists and the target list is well-formed it
returns zero with the accumulated counters — even when the target root is absent,
since `process_media_files` silently creates it. -/
theorem c10_exit_status_spec (fs : FS) (sources targets : List FsPath) :
    ((∃ s ∈ sources, dirExists fs s = false) → (mediaMain fs sources targets).1 = 1) ∧
    ((∀ s ∈ sources, dirExists fs s = true) →
      (targets.length ≤ 1 ∨ targets.length = sources.length) →
      (mediaMain fs sources targets).1 = 0) := by
  constructor
  · rintro ⟨s, hs, hmiss⟩
    have hany : sources.any (fun s => !dirExists fs s) = true := by
      rw [List.any_eq_true]
      exact ⟨s, hs, by simp [hmiss]⟩
    simp [mediaMain, hany]
  · intro hall hlen
    have hany : sources.any (fun s => !dirExists fs s) = false := by
      rw [Bool.eq_false_iff]
      intro hcon
      rw [List.any_eq_true] at hcon
      obtain ⟨s, hs, hcon⟩ := hcon
      rw [hall s hs] at hcon
      simp at hcon
    have hcond : ¬ (targets.length > 1 ∧ targets.length ≠ sources.length) := by
      rcases hlen with h | h <;> omega
    simp [mediaMain, hany, hcond]

/-- Witness for C10's amended statement: exit 1 with the source root absent, exit 0
with the source root present (and the target root still absent). -/
theorem c10_exit_status_spec_witness :
    (mediaMain ⟨[], []⟩ [["s"]] [["t"]]).1 = 1 ∧
    (mediaMain ⟨[["s"]], []⟩ [["s"]] [["t"]]).1 = 0 :=
  ⟨(c10_exit_status_spec ⟨[], []⟩ [["s"]] [["t"]]).1 ⟨["s"], by decide, by decide⟩,
   (c10_exit_status_spec ⟨[["s"]], []⟩ [["s"]] [["t"]]).2 (by decide) (Or.inl (by decide))⟩

/-! ## C8: the validating scanners exclude invalid images -/

/-- Every record produced by the source scan comes from a walked file with the same
path, and that file is a valid image whenever it is classified as an image. -/
theorem source_scan_mem (fs : FS) (root : FsPath) (i : FileInfo)
    (hi : i ∈ source_scan fs root) :
    ∃ e ∈ walk fs root, i.path = e.path ∧
      (get_file_type (basename e.path) = .image → e.data.valid_image = true) := by
  rw [source_scan, List.mem_filterMap] at hi
  obtain ⟨e, he, hfe⟩ := hi
  simp only at hfe
  refine ⟨e, he, ?_⟩
  split at hfe
  · split at hfe
    · cases hfe
    · rename_i hcond
      cases hfe
      refine ⟨rfl, fun himg => ?_⟩
      by_contra hv
      exact hcond ⟨himg, by simpa using hv⟩
  · cases hfe

/-- Every record produced by the target scan comes from a walked file with the same
path, and that file is a valid image whenever it is classified as an image. -/
theorem target_scan_mem (fs : FS) (root : FsPath) (i : FileInfo)
    (hi : i ∈ target_scan fs root) :
    ∃ e ∈ walk fs root, i.path = e.path ∧
      (get_file_type (basename e.path) = .image → e.data.valid_image = true) := by
  rw [target_scan, List.mem_filterMap] at hi
  obtain ⟨e, he, hfe⟩ := hi
  simp only at hfe
  refine ⟨e, he, ?_⟩
  split at hfe
  · cases hfe
  · rename_i hcond
    cases hfe
    refine ⟨rfl, fun himg => ?_⟩
    by_contra hv
    exact hcond ⟨himg, by simpa using hv⟩

/-- C8, amended. In the validating scanners (media_organizer.py shown here; the
optimized variant uses the same `is_image_file` guard) a file classified `image` that
fails validation is excluded from the inventory entirely: no scanned record carries
its path.  The ultra variant instead trusts the extension and records such a file
under its exact hash only (`c8_ultra_inventories_invalid_image`); in every variant the
scan is a total function, so the failure never aborts the run. -/
theorem c8_validating_scan_excludes_invalid (fs : FS) (root : FsPath) (e : FSEntry)
    (hnd : (fs.files.map FSEntry.path).Nodup)
    (hwalk : e ∈ walk fs root)
    (himg : get_file_type (basename e.path) = .image)
    (hbad : e.data.valid_image = false) :
    (∀ i ∈ source_scan fs root, i.path ≠ e.path) ∧
    (∀ i ∈ target_scan fs root, i.path ≠ e.path) := by
  have hsub : List.Sublist ((walk fs root).map FSEntry.path) (fs.files.map FSEntry.path) :=
    List.Sublist.map _ (List.filter_sublist _)
  have hinj : ∀ a ∈ walk fs root, ∀ b ∈ walk fs root, a.path = b.path → a = b :=
    fun a ha b hb hab => List.inj_on_of_nodup_map (hnd.sublist hsub) ha hb hab
  constructor
  · intro i hi heq
    obtain ⟨e', he', hpath, hvalid⟩ := source_scan_mem fs root i hi
    have : e' = e := hinj e' he' e hwalk (hpath ▸ heq)
    subst this
    rw [hvalid himg] at hbad
    cases hbad
  · intro i hi heq
    obtain ⟨e', he', hpath, hvalid⟩ := target_scan_mem fs root i hi
    have : e' = e := hinj e' he' e hwalk (hpath ▸ heq)
    subst this
    rw [hvalid himg] at hbad
    cases hbad

/-- Witness for C8's amended statement at the concrete corrupt `.jpg`. -/
theorem c8_validating_scan_excludes_invalid_witness :
    (∀ i ∈ source_scan fsScen8 ["s"], i.path ≠ ["s", "bad.jpg"]) ∧
    (∀ i ∈ target_scan fsScen8 ["s"], i.path ≠ ["s", "bad.jpg"]) :=
  c8_validating_scan_excludes_invalid fsScen8 ["s"] ⟨["s", "bad.jpg"], dataBad⟩
    (by decide) (by decide) (by decide) (by decide)

/-! ## C5: deletes touch only target-origin files -/

/-- Every delete effect in a trace was applied to a target-origin record. -/
def delEffsTargetA (l : List Effect) : Prop :=
  ∀ f, Effect.deleted f ∈ l → f.is_target = true

theorem delEffsTargetA_nil : delEffsTargetA [] := fun _ h => absurd h (List.not_mem_nil _)

theorem delEffsTargetA_del {l : List Effect} {f : FileInfo} (h : delEffsTargetA l)
    (hf : f.is_target = true) : delEffsTargetA (l ++ [.deleted f]) := by
  intro g hg
  rcases List.mem_append.mp hg with h1 | h2
  · exact h g h1
  · rw [List.mem_singleton] at h2
    injection h2 with h3
    rw [h3]
    exact hf

theorem delEffsTargetA_skip {l : List Effect} {f : FileInfo} (h : delEffsTargetA l) :
    delEffsTargetA (l ++ [.skipped f]) := by
  intro g hg
  rcases List.mem_append.mp hg with h1 | h2
  · exact h g h1
  · rw [List.mem_singleton] at h2
    cases h2

theorem delEffsTargetA_copy {l : List Effect} {f : FileInfo} {dest : FsPath}
    (h : delEffsTargetA l) : delEffsTargetA (l ++ [.copied f dest]) := by
  intro g hg
  rcases List.mem_append.mp hg with h1 | h2
  · exact h g h1
  · rw [List.mem_singleton] at h2
    cases h2

theorem delEffsTargetA_copyInto (ar : Bool) (ttd : FsPath) (st : RState) (f : FileInfo)
    (h : delEffsTargetA st.effects) : delEffsTargetA ((copyInto ar ttd st f).effects) :=
  delEffsTargetA_copy h

theorem c5A_foldDelKeep (largest : FileInfo) (l : List FileInfo)
    (hl : ∀ f ∈ l, f.is_target = true) :
    ∀ st, delEffsTargetA st.effects →
      delEffsTargetA ((l.foldl (delStepKeep largest) st).effects) := by
  induction l with
  | nil => exact fun st h => h
  | cons f t ih =>
    intro st h
    rw [List.foldl_cons]
    refine ih (fun g hg => hl g (List.mem_cons_of_mem f hg)) _ ?_
    unfold delStepKeep
    split
    · exact delEffsTargetA_del h (hl f (List.mem_cons_self f t))
    · exact h

theorem c5A_foldDelAll (l : List FileInfo) (hl : ∀ f ∈ l, f.is_target = true) :
    ∀ st, delEffsTargetA st.effects →
      delEffsTargetA ((l.foldl delStepAll st).effects) := by
  induction l with
  | nil => exact fun st h => h
  | cons f t ih =>
    intro st h
    rw [List.foldl_cons]
    refine ih (fun g hg => hl g (List.mem_cons_of_mem f hg)) _ ?_
    unfold delStepAll
    split
    · exact delEffsTargetA_del h (hl f (List.mem_cons_self f t))
    · exact h

theorem c5A_foldSkipAll (l : List FileInfo) :
    ∀ st, delEffsTargetA st.effects →
      delEffsTargetA ((l.foldl skipStepAll st).effects) := by
  induction l with
  | nil => exact fun st h => h
  | cons f t ih =>
    intro st h
    rw [List.foldl_cons]
    refine ih _ ?_
    unfold skipStepAll
    split
    · exact delEffsTargetA_skip h
    · exact h

theorem c5A_foldSkipKeep (largest : FileInfo) (l : List FileInfo) :
    ∀ st, delEffsTargetA st.effects →
      delEffsTargetA ((l.foldl (skipStepKeep largest) st).effects) := by
  induction l with
  | nil => exact fun st h => h
  | cons f t ih =>
    intro st h
    rw [List.foldl_cons]
    refine ih _ ?_
    unfold skipStepKeep
    split
    · exact delEffsTargetA_skip h
    · exact h

theorem c5A_processGroup (ttd : FsPath) (grp : String × List FileInfo) (st : RState)
    (h : delEffsTargetA st.effects) :
    delEffsTargetA ((processGroupA ttd st grp).effects) := by
  have hfilt : ∀ f ∈ (unique_files grp.2).filter (fun f => f.is_target = true),
      f.is_target = true := by
    intro f hf
    simpa using (List.mem_filter.mp hf).2
  unfold processGroupA
  dsimp only
  split
  · split
    · split
      · exact delEffsTargetA_copyInto _ _ _ _ h
      · exact h
    · exact h
  · split
    · exact h
    · rename_i largest hlf
      split
      · exact c5A_foldSkipAll _ _ (c5A_foldDelKeep largest _ hfilt st h)
      · refine c5A_foldSkipKeep largest _ _ ?_
        split
        · exact delEffsTargetA_copyInto _ _ _ _ (c5A_foldDelAll _ hfilt st h)
        · exact c5A_foldDelAll _ hfilt st h

theorem c5A_processGroups (ttd : FsPath) (groups : List (String × List FileInfo)) :
    ∀ st, delEffsTargetA st.effects →
      delEffsTargetA ((processGroupsA ttd st groups).effects) := by
  induction groups with
  | nil => exact fun st h => h
  | cons g t ih =>
    intro st h
    unfold processGroupsA at ih ⊢
    rw [List.foldl_cons]
    exact ih _ (c5A_processGroup ttd g st h)

theorem c5A_processType (uch : Bool) (td : FsPath) (t : FileType) (infos : List FileInfo)
    (fs : FS) : delEffsTargetA ((processTypeA uch td t infos fs).effects) := by
  unfold processTypeA
  dsimp only
  split
  · exact delEffsTargetA_nil
  · exact c5A_processGroups _ _ _ delEffsTargetA_nil

/-- Every delete effect in a SQLite-resolver trace was applied to a target row. -/
def delEffsTargetB (l : List BEffect) : Prop :=
  ∀ r, BEffect.deleted r ∈ l → r.is_target = true

theorem delEffsTargetB_nil : delEffsTargetB [] := fun _ h => absurd h (List.not_mem_nil _)

theorem delEffsTargetB_del {l : List BEffect} {r : DBRow} (h : delEffsTargetB l)
    (hr : r.is_target = true) : delEffsTargetB (l ++ [.deleted r]) := by
  intro q hq
  rcases List.mem_append.mp hq with h1 | h2
  · exact h q h1
  · rw [List.mem_singleton] at h2
    injection h2 with h3
    rw [h3]
    exact hr

theorem delEffsTargetB_skip {l : List BEffect} {r : DBRow} (h : delEffsTargetB l) :
    delEffsTargetB (l ++ [.skipped r]) := by
  intro q hq
  rcases List.mem_append.mp hq with h1 | h2
  · exact h q h1
  · rw [List.mem_singleton] at h2
    cases h2

theorem delEffsTargetB_copy {l : List BEffect} {r : DBRow} {dest : FsPath}
    (h : delEffsTargetB l) : delEffsTargetB (l ++ [.copied r dest]) := by
  intro q hq
  rcases List.mem_append.mp hq with h1 | h2
  · exact h q h1
  · rw [List.mem_singleton] at h2
    cases h2

theorem c5B_foldDel (l : List DBRow) :
    ∀ st, delEffsTargetB st.effects →
      delEffsTargetB ((l.foldl
        (fun s r => if r.is_target = true ∧ r.processed = false then deleteB s r else s)
        st).effects) := by
  induction l with
  | nil => exact fun st h => h
  | cons r t ih =>
    intro st h
    rw [List.foldl_cons]
    refine ih _ ?_
    split
    · rename_i hc
      exact delEffsTargetB_del h hc.1
    · exact h

theorem c5B_foldSkip (l : List DBRow) :
    ∀ st, delEffsTargetB st.effects →
      delEffsTargetB ((l.foldl
        (fun s r => if r.is_target = false ∧ r.processed = false then skipB s r else s)
        st).effects) := by
  induction l with
  | nil => exact fun st h => h
  | cons r t ih =>
    intro st h
    rw [List.foldl_cons]
    refine ih _ ?_
    split
    · exact delEffsTargetB_skip h
    · exact h

theorem c5B_processGroup (ttd : FsPath) (dup : List DBRow) (st : BState)
    (h : delEffsTargetB st.effects) :
    delEffsTargetB ((processHashGroupB ttd st dup).effects) := by
  unfold processHashGroupB
  dsimp only
  split
  · split
    · split
      · exact delEffsTargetB_copy h
      · exact h
    · exact h
  · split
    · exact h
    · rename_i largest rest
      split
      · exact c5B_foldSkip _ _ (c5B_foldDel _ st h)
      · refine c5B_foldSkip _ _ ?_
        split
        · exact delEffsTargetB_copy (c5B_foldDel _ st h)
        · exact c5B_foldDel _ st h

theorem c5B_processType (t : FileType) (td : FsPath) (st : BState)
    (h : delEffsTargetB st.effects) :
    delEffsTargetB ((processTypeB t td st).effects) := by
  unfold processTypeB
  dsimp only
  have key : ∀ (l : List String) (s : BState), delEffsTargetB s.effects →
      delEffsTargetB ((l.foldl (fun s hv => processHashGroupB (get_target_directory td t) s
        (sortRows (List.filter (fun r => decide (r.file_hash = hv ∧ r.file_type = t))
          s.db))) s).effects) := by
    intro l
    induction l with
    | nil => exact fun _ hs => hs
    | cons hv t' ih =>
      intro s hs
      rw [List.foldl_cons]
      exact ih _ (c5B_processGroup _ _ _ hs)
  exact key _ _ h

theorem c5B_duplicates (td : FsPath) (st : BState) (h : delEffsTargetB st.effects) :
    delEffsTargetB ((process_duplicates td st).effects) := by
  unfold process_duplicates
  exact c5B_processType _ _ _ (c5B_processType _ _ _ (c5B_processType _ _ _ h))

/-- C5. A delete disposition is only ever applied to a target-origin record: in
both the in-memory resolver and the SQLite-backed resolver, every `deleted` effect in
the trace of a full run carries `is_target = true`, so no source-origin file is ever
removed from disk. -/
theorem c5_deletes_only_target_origin :
    (∀ fs src td uch f, Effect.deleted f ∈ (process_media_files fs src td uch).2.2 →
      f.is_target = true) ∧
    (∀ fs src td uch r, BEffect.deleted r ∈ (process_media_files_B fs src td uch).2.effects →
      r.is_target = true) := by
  constructor
  · intro fs src td uch f hf
    unfold process_media_files at hf
    dsimp only at hf
    rcases List.mem_append.mp hf with h12 | h3
    · rcases List.mem_append.mp h12 with h1 | h2
      · exact c5A_processType _ _ _ _ _ f h1
      · exact c5A_processType _ _ _ _ _ f h2
    · exact c5A_processType _ _ _ _ _ f h3
  · intro fs src td uch r hr
    unfold process_media_files_B at hr
    dsimp only at hr
    exact c5B_duplicates _ _ delEffsTargetB_nil r hr

/-- Witness for C5 at the C3 filesystem: the one delete of that run hits the
target-origin `b.jpg`. -/
theorem c5_deletes_only_target_origin_witness :
    (mkFileInfo ⟨["t", "b.jpg"], dataC3tb⟩ .image true).is_target = true :=
  c5_deletes_only_target_origin.1 fsScen3 ["s"] ["t"] true
    (mkFileInfo ⟨["t", "b.jpg"], dataC3tb⟩ .image true) (by decide)

/-! ## C9: no path receives two dispositions -/

/-- Is the effect a copy? -/
def Effect.isCopy : Effect → Bool
  | .copied _ _ => true
  | _ => false

/-- Is the effect a delete? -/
def Effect.isDel : Effect → Bool
  | .deleted _ => true
  | _ => false

/-- Is the effect a skip? -/
def Effect.isSkip : Effect → Bool
  | .skipped _ => true
  | _ => false

/-- Resolution-state invariant: no two effects touch the same path, every affected
path is in the processed set, and each counter equals the number of effects of its
kind (so a counter is never incremented twice for one path). -/
def okA (st : RState) : Prop :=
  (st.effects.map (fun e => e.info.path)).Nodup ∧
  (∀ e ∈ st.effects, e.info.path ∈ st.procSet) ∧
  st.copied + st.replaced = (st.effects.filter Effect.isCopy).length ∧
  st.skipped = (st.effects.filter Effect.isSkip).length ∧
  st.deleted = (st.effects.filter Effect.isDel).length

theorem okA_init (fs : FS) : okA (initState fs) := by
  refine ⟨by simp [initState], ?_, by simp [initState], by simp [initState], by simp [initState]⟩
  intro e he
  simp [initState] at he

theorem okA_notin_map {st : RState} {f : FileInfo} (h2 : ∀ e ∈ st.effects, e.info.path ∈ st.procSet)
    (hf : f.path ∉ st.procSet) : f.path ∉ st.effects.map (fun e => e.info.path) := by
  intro hmem
  obtain ⟨e, he, hpe⟩ := List.mem_map.mp hmem
  exact hf (hpe ▸ h2 e he)

theorem okA_nodup_append {st : RState} {f : FileInfo} (e : Effect)
    (h1 : (st.effects.map (fun e => e.info.path)).Nodup)
    (h2 : ∀ e ∈ st.effects, e.info.path ∈ st.procSet)
    (hf : f.path ∉ st.procSet) (hef : e.info = f) :
    ((st.effects ++ [e]).map (fun e => e.info.path)).Nodup := by
  rw [List.map_append]
  refine List.Nodup.append h1 (List.nodup_singleton _) ?_
  intro a ha hb
  rw [List.mem_map] at hb
  obtain ⟨e', he', hpe⟩ := hb
  rw [List.mem_singleton] at he'
  subst he'
  rw [hef] at hpe
  rw [← hpe] at ha
  exact okA_notin_map h2 hf ha

theorem okA_mem_append {st : RState} {f : FileInfo} (e : Effect)
    (h2 : ∀ e ∈ st.effects, e.info.path ∈ st.procSet) (hef : e.info = f) :
    ∀ g ∈ st.effects ++ [e], g.info.path ∈ f.path :: st.procSet := by
  intro g hg
  rcases List.mem_append.mp hg with h | h
  · exact List.mem_cons_of_mem _ (h2 g h)
  · rw [List.mem_singleton] at h
    subst h
    rw [hef]
    exact List.mem_cons_self _ _

theorem okA_emit_copy (ar : Bool) (ttd : FsPath) (st : RState) (f : FileInfo)
    (h : okA st) (hf : f.path ∉ st.procSet) : okA (copyInto ar ttd st f) := by
  obtain ⟨h1, h2, h3, h4, h5⟩ := h
  unfold copyInto
  refine ⟨okA_nodup_append _ h1 h2 hf rfl, okA_mem_append _ h2 rfl, ?_, ?_, ?_⟩
  · simp only [List.filter_append, List.length_append]
    cases ar <;> simp [Effect.isCopy] <;> omega
  · simp only [List.filter_append, List.length_append]
    simp [Effect.isSkip, h4]
  · simp only [List.filter_append, List.length_append]
    simp [Effect.isDel, h5]

theorem okA_emit_del (st : RState) (f : FileInfo) (h : okA st) (hf : f.path ∉ st.procSet) :
    okA { st with fs := st.fs.removeFile f.path, deleted := st.deleted + 1,
                  procSet := f.path :: st.procSet, effects := st.effects ++ [.deleted f] } := by
  obtain ⟨h1, h2, h3, h4, h5⟩ := h
  refine ⟨okA_nodup_append _ h1 h2 hf rfl, okA_mem_append _ h2 rfl, ?_, ?_, ?_⟩
  · simp only [List.filter_append, List.length_append]
    simp [Effect.isCopy, h3]
  · simp only [List.filter_append, List.length_append]
    simp [Effect.isSkip, h4]
  · simp only [List.filter_append, List.length_append]
    simp [Effect.isDel, h5]

theorem okA_emit_skip (st : RState) (f : FileInfo) (h : okA st) (hf : f.path ∉ st.procSet) :
    okA { st with skipped := st.skipped + 1, procSet := f.path :: st.procSet,
                  effects := st.effects ++ [.skipped f] } := by
  obtain ⟨h1, h2, h3, h4, h5⟩ := h
  refine ⟨okA_nodup_append _ h1 h2 hf rfl, okA_mem_append _ h2 rfl, ?_, ?_, ?_⟩
  · simp only [List.filter_append, List.length_append]
    simp [Effect.isCopy, h3]
  · simp only [List.filter_append, List.length_append]
    simp [Effect.isSkip, h4]
  · simp only [List.filter_append, List.length_append]
    simp [Effect.isDel, h5]

theorem okA_foldDelKeep (largest : FileInfo) (l : List FileInfo) :
    ∀ st, okA st → okA (l.foldl (delStepKeep largest) st) := by
  induction l with
  | nil => exact fun _ h => h
  | cons f t ih =>
    intro st h
    rw [List.foldl_cons]
    refine ih _ ?_
    unfold delStepKeep
    split
    · rename_i hc
      exact okA_emit_del st f h hc.2
    · exact h

theorem okA_foldDelAll (l : List FileInfo) :
    ∀ st, okA st → okA (l.foldl delStepAll st) := by
  induction l with
  | nil => exact fun _ h => h
  | cons f t ih =>
    intro st h
    rw [List.foldl_cons]
    refine ih _ ?_
    unfold delStepAll
    split
    · rename_i hc
      exact okA_emit_del st f h hc
    · exact h

theorem okA_foldSkipAll (l : List FileInfo) :
    ∀ st, okA st → okA (l.foldl skipStepAll st) := by
  induction l with
  | nil => exact fun _ h => h
  | cons f t ih =>
    intro st h
    rw [List.foldl_cons]
    refine ih _ ?_
    unfold skipStepAll
    split
    · rename_i hc
      exact okA_emit_skip st f h hc
    · exact h

theorem okA_foldSkipKeep (largest : FileInfo) (l : List FileInfo) :
    ∀ st, okA st → okA (l.foldl (skipStepKeep largest) st) := by
  induction l with
  | nil => exact fun _ h => h
  | cons f t ih =>
    intro st h
    rw [List.foldl_cons]
    refine ih _ ?_
    unfold skipStepKeep
    split
    · rename_i hc
      exact okA_emit_skip st f h hc.2
    · exact h

theorem okA_processGroup (ttd : FsPath) (grp : String × List FileInfo) (st : RState)
    (h : okA st) : okA (processGroupA ttd st grp) := by
  unfold processGroupA
  dsimp only
  split
  · split
    · split
      · rename_i hc
        exact okA_emit_copy false ttd st _ h hc.2
      · exact h
    · exact h
  · split
    · exact h
    · rename_i largest hlf
      split
      · exact okA_foldSkipAll _ _ (okA_foldDelKeep largest _ st h)
      · refine okA_foldSkipKeep largest _ _ ?_
        split
        · rename_i hc
          exact okA_emit_copy true ttd _ largest (okA_foldDelAll _ st h) hc
        · exact okA_foldDelAll _ st h

/-- C9. For every list of hash groups — in particular when a file appears in two
groups, once via its exact hash and once via its perceptual hash — the resolver
applies at most one disposition per path: the effect trace of a whole resolution run
touches pairwise-distinct paths, every touched path is in the processed set, and each
counter equals the number of effects of its kind, so a second visit of a processed
path neither applies a side effect nor increments a counter. -/
theorem c9_no_double_disposition (ttd : FsPath) (fs : FS)
    (groups : List (String × List FileInfo)) :
    (((processGroupsA ttd (initState fs) groups).effects.map (fun e => e.info.path)).Nodup) ∧
    okA (processGroupsA ttd (initState fs) groups) := by
  have key : ∀ st, okA st → okA (processGroupsA ttd st groups) := by
    unfold processGroupsA
    induction groups with
    | nil => exact fun _ h => h
    | cons g t ih =>
      intro st h
      rw [List.foldl_cons]
      exact ih _ (okA_processGroup ttd g st h)
  have hok := key (initState fs) (okA_init fs)
  exact ⟨hok.1, hok⟩
